import Mathlib

/-!
Verification of the Scope tag/folder data layer and session manager.

The Go repository stores a many-to-many folder/tag mapping in sqlite
(tables folders, tags, folder_tags created by createTables in
internal/db/sqlite.go) and manipulates it through the functions of the
internal/tag package.  Here the database is embedded shallowly: each
table is a list of rows, AUTOINCREMENT surrogate ids are carried by
explicit next-id counters, and each Go function becomes a Lean function
over the state.  The filesystem existence check done with os.Stat is
embedded as membership of the path in an explicit list of paths that
exist on disk, and the wall clock read by time.Now().Unix() is an
explicit integer argument.

One behaviour of the real store is load-bearing for the embedding:
InitDB opens the database with sql.Open("sqlite3", dbPath) - a plain
file path with no _foreign_keys DSN parameter - and never issues
PRAGMA foreign_keys.  sqlite leaves foreign-key enforcement OFF by
default, so the ON DELETE CASCADE clauses declared in the schema are
inert at run time: deleting a tags or folders row does NOT delete the
folder_tags rows that reference it.  The embedding reproduces this:
deleteTag, mergeTag and prune remove only the rows their DELETE
statement names.  UNIQUE and PRIMARY KEY constraints, by contrast, are
always enforced by sqlite; the Go code only ever inserts after a failed
lookup or with INSERT OR IGNORE, which the embedding mirrors directly.
-/

namespace Scope

/-- A row of the folders table: surrogate id, unique path, creation time. -/
structure Folder where
  id : Nat
  path : String
  createdAt : Int
deriving DecidableEq, Repr

/-- A row of the tags table: surrogate id, unique name, creation time. -/
structure TagRow where
  id : Nat
  name : String
  createdAt : Int
deriving DecidableEq, Repr

/-- A row of the folder_tags association table. -/
structure FolderTag where
  folderId : Nat
  tagId : Nat
  createdAt : Int
deriving DecidableEq, Repr

/-- The persistent database state: the three tables plus the AUTOINCREMENT
counters that produce fresh surrogate ids. -/
structure DB where
  folders : List Folder
  tags : List TagRow
  folderTags : List FolderTag
  nextFolderId : Nat
  nextTagId : Nat
deriving DecidableEq, Repr

/-- The empty database produced by createTables. -/
def DB.empty : DB :=
  { folders := [], tags := [], folderTags := [], nextFolderId := 1, nextTagId := 1 }

/-- SELECT id FROM folders WHERE path = ? -/
def findFolder (s : DB) (path : String) : Option Folder :=
  s.folders.find? (fun f => f.path == path)

/-- SELECT id FROM tags WHERE name = ? -/
def findTag (s : DB) (name : String) : Option TagRow :=
  s.tags.find? (fun t => t.name == name)

/-- INSERT OR IGNORE INTO folder_tags (folder_id, tag_id, created_at):
the row is inserted unless the primary key (folder_id, tag_id) is
already present. -/
def insertOrIgnoreAssoc (s : DB) (fid tid : Nat) (now : Int) : DB :=
  if s.folderTags.any (fun a => a.folderId == fid && a.tagId == tid) then s
  else { s with folderTags := s.folderTags ++ [FolderTag.mk fid tid now] }

/-- The insert-or-get folder block of AddTag: SELECT id FROM folders
WHERE path = ?, falling back to INSERT INTO folders (path, created_at)
and LastInsertId. -/
def ensureFolder (now : Int) (path : String) (s : DB) : Nat × DB :=
  match findFolder s path with
  | some f => (f.id, s)
  | none =>
      (s.nextFolderId,
       { s with folders := s.folders ++ [Folder.mk s.nextFolderId path now],
                nextFolderId := s.nextFolderId + 1 })

/-- The insert-or-get tag block of AddTag: SELECT id FROM tags WHERE
name = ?, falling back to INSERT INTO tags (name, created_at) and
LastInsertId. -/
def ensureTag (now : Int) (name : String) (s : DB) : Nat × DB :=
  match findTag s name with
  | some t => (t.id, s)
  | none =>
      (s.nextTagId,
       { s with tags := s.tags ++ [TagRow.mk s.nextTagId name now],
                nextTagId := s.nextTagId + 1 })

/-- tag.AddTag: validates that the path exists on disk (os.Stat), then in
one transaction looks up or inserts the folder row, looks up or inserts
the tag row, and INSERT OR IGNOREs the association.  disk is the set of
paths that exist on disk; now is time.Now().Unix(). -/
def addTag (disk : List String) (now : Int) (path tagName : String) (s : DB) :
    Except String DB :=
  if !disk.contains path then
    .error ("folder does not exist: " ++ path)
  else
    let (fid, s1) := ensureFolder now path s
    let (tid, s2) := ensureTag now tagName s1
    .ok (insertOrIgnoreAssoc s2 fid tid now)

/-- The folder_tags rows surviving the DELETE statement of RemoveTag:
DELETE FROM folder_tags WHERE folder_id = (SELECT id FROM folders WHERE
path = ?) AND tag_id = (SELECT id FROM tags WHERE name = ?).  When
either subquery is empty the comparison with NULL matches no row, so
nothing is deleted. -/
def removeTagRemaining (path tagName : String) (s : DB) : List FolderTag :=
  match findFolder s path, findTag s tagName with
  | some f, some t =>
      s.folderTags.filter (fun a => !(a.folderId == f.id && a.tagId == t.id))
  | _, _ => s.folderTags

/-- tag.RemoveTag: runs the DELETE above and then checks RowsAffected;
zero rows affected is reported as an error, not a silent no-op. -/
def removeTag (path tagName : String) (s : DB) : Except String DB :=
  if (removeTagRemaining path tagName s).length == s.folderTags.length then
    .error ("tag " ++ tagName ++ " not found on folder: " ++ path)
  else
    .ok { s with folderTags := removeTagRemaining path tagName s }

/-- tag.DeleteTag: DELETE FROM tags WHERE name = ?; zero rows affected is
an error.  Foreign-key enforcement is off (see the file header), so the
folder_tags rows referencing the deleted tag are left in place. -/
def deleteTag (tagName : String) (s : DB) : Except String DB :=
  let remaining := s.tags.filter (fun t => !(t.name == tagName))
  if remaining.length == s.tags.length then
    .error ("tag not found: " ++ tagName)
  else
    .ok { s with tags := remaining }

/-- tag.ListTags: every tag name with its folder count (LEFT JOIN, so a
tag with no associations is listed with count 0). -/
def listTags (s : DB) : List (String × Nat) :=
  s.tags.map (fun t =>
    (t.name, (s.folderTags.filter (fun a => a.tagId == t.id)).length))

/-- Lexicographic comparison of character lists, the order sqlite uses
for ORDER BY on a text column (bytewise BINARY comparison: on UTF-8
data, code-point order and byte order agree). -/
def charsLe : List Char → List Char → Bool
  | [], _ => true
  | _ :: _, [] => false
  | a :: as, b :: bs =>
    if a < b then true else if b < a then false else charsLe as bs

/-- The ORDER BY comparison on strings.  strLe_iff proves it agrees with
the standard lexicographic order on String. -/
def strLe (a b : String) : Bool :=
  charsLe a.data b.data

/-- Insertion of a string into a list sorted by the lexicographic
order - the embedding of the ORDER BY clause of the list queries. -/
def insertSorted (x : String) : List String → List String
  | [] => [x]
  | y :: ys => if strLe x y then x :: y :: ys else y :: insertSorted x ys

/-- Sorting by repeated sorted insertion (ORDER BY on a text column). -/
def sortStrings (l : List String) : List String :=
  l.foldr insertSorted []

/-- tag.ListFoldersByTag: SELECT f.path FROM folders f JOIN folder_tags
ft ON f.id = ft.folder_id JOIN tags t ON ft.tag_id = t.id WHERE t.name
= ? ORDER BY f.path. -/
def listFoldersByTag (tagName : String) (s : DB) : List String :=
  sortStrings (s.folderTags.filterMap (fun a =>
    if s.tags.any (fun t => t.id == a.tagId && t.name == tagName) then
      (s.folders.find? (fun f => f.id == a.folderId)).map (fun f => f.path)
    else none))

/-- tag.GetTagsForFolder: SELECT t.name FROM tags t JOIN folder_tags ft
ON t.id = ft.tag_id JOIN folders f ON ft.folder_id = f.id WHERE f.path
= ? ORDER BY t.name. -/
def getTagsForFolder (path : String) (s : DB) : List String :=
  sortStrings (s.folderTags.filterMap (fun a =>
    if s.folders.any (fun f => f.id == a.folderId && f.path == path) then
      (s.tags.find? (fun t => t.id == a.tagId)).map (fun t => t.name)
    else none))

/-- tag.RenameTag: fails if oldName is absent or newName present,
otherwise UPDATE tags SET name = ? WHERE id = ?. -/
def renameTag (oldName newName : String) (s : DB) : Except String DB :=
  match findTag s oldName with
  | none => .error ("tag not found: " ++ oldName)
  | some oldTag =>
    match findTag s newName with
    | some _ => .error ("tag already exists: " ++ newName)
    | none =>
        .ok { s with tags := s.tags.map (fun t =>
                if t.id == oldTag.id then { t with name := newName } else t) }

/-- tag.MergeTag: requires the source tag to exist; creates the
destination tag if absent; for each folder listed for the source tag,
looks its id up again (skipping it, uncounted, if the lookup fails) and
INSERT OR IGNOREs an association with the destination id, counting every
folder whose insert statement succeeded; finally DELETE FROM tags WHERE
id = srcID (no cascade: foreign-key enforcement is off).  One loop
iteration is mergeStep: the folder id is looked up again (continue on
failure, leaving the count unchanged), then INSERT OR IGNORE into
folder_tags under the destination id; a successful insert statement -
including an ignored duplicate - increments the moved count. -/
def mergeStep (dstId : Nat) (now : Int) (acc : Nat × DB) (folder : String) :
    Nat × DB :=
  match findFolder acc.2 folder with
  | none => acc
  | some f => (acc.1 + 1, insertOrIgnoreAssoc acc.2 f.id dstId now)

/-- The destination block of MergeTag: look the destination tag up,
creating it when absent, yielding its id and the resulting state. -/
def mergeDst (now : Int) (dstName : String) (s : DB) : Nat × DB :=
  match findTag s dstName with
  | some t => (t.id, s)
  | none =>
      (s.nextTagId,
       { s with tags := s.tags ++ [TagRow.mk s.nextTagId dstName now],
                nextTagId := s.nextTagId + 1 })

def mergeTag (now : Int) (srcName dstName : String) (s : DB) :
    Except String (Nat × DB) :=
  match findTag s srcName with
  | none => .error ("source tag not found: " ++ srcName)
  | some srcTag =>
    let dstId := (mergeDst now dstName s).1
    let s1 := (mergeDst now dstName s).2
    let res := (listFoldersByTag srcName s1).foldl (mergeStep dstId now) (0, s1)
    .ok (res.1,
         { res.2 with tags := res.2.tags.filter (fun t => !(t.id == srcTag.id)) })

/-- tag.CloneTag: requires the source tag to exist and the new name to be
absent; creates the new tag and copies every folder_tags row of the
source to it (INSERT ... SELECT), returning the number of copied rows. -/
def cloneTag (now : Int) (srcName newName : String) (s : DB) :
    Except String (Nat × DB) :=
  match findTag s srcName with
  | none => .error ("source tag not found: " ++ srcName)
  | some srcTag =>
    match findTag s newName with
    | some _ => .error ("tag already exists: " ++ newName)
    | none =>
      let newId := s.nextTagId
      let s1 := { s with tags := s.tags ++ [TagRow.mk newId newName now],
                         nextTagId := s.nextTagId + 1 }
      let copied := s1.folderTags.filter (fun a => a.tagId == srcTag.id)
      .ok (copied.length,
           { s1 with folderTags :=
               s1.folderTags ++ copied.map (fun a => FolderTag.mk a.folderId newId now) })

/-- The result record of tag.Prune. -/
structure PruneResult where
  RemovedFolders : List String
  RemovedCount : Nat
deriving DecidableEq, Repr

/-- The folder rows whose path no longer exists on disk (os.Stat reports
IsNotExist), in table order - the toRemove list collected by Prune. -/
def staleFolders (disk : List String) (s : DB) : List Folder :=
  s.folders.filter (fun f => !disk.contains f.path)

/-- tag.Prune: collects every tracked folder whose path no longer exists
on disk; in dry-run mode returns that list and leaves the state
untouched, otherwise deletes each collected folder row by id (again no
cascade: foreign-key enforcement is off). -/
def prune (disk : List String) (dryRun : Bool) (s : DB) :
    Except String (PruneResult × DB) :=
  let toRemove := staleFolders disk s
  if dryRun then
    .ok ({ RemovedFolders := toRemove.map (fun f => f.path),
           RemovedCount := toRemove.length }, s)
  else
    let ids := toRemove.map (fun f => f.id)
    .ok ({ RemovedFolders := toRemove.map (fun f => f.path),
           RemovedCount := toRemove.length },
         { s with folders := s.folders.filter (fun f => !ids.contains f.id) })

/-- Go filepath.Base: trailing slashes are dropped, the last path element
is returned, a string of only slashes gives the single slash and the
empty string gives the single dot.  Implemented over the character list
of the path. -/
def basename (p : String) : String :=
  if p == "" then "."
  else
    let trimmed := (p.data.reverse.dropWhile (fun c => c == '/')).reverse
    if trimmed == [] then "/"
    else String.mk ((trimmed.reverse.takeWhile (fun c => !(c == '/'))).reverse)

/-- The collision loop of StartMultiTagSession: candidate names base-1,
base-2, ... are tried in order until one is not among the link names
already created in the workspace (the os.Lstat probe).  The fuel bound
existing.length + 1 is enough for the loop to find a free name. -/
def resolveCollision (existing : List String) (base : String) :
    Nat → Nat → String
  | _, 0 => base
  | counter, fuel + 1 =>
    let cand := base ++ "-" ++ toString counter
    if existing.contains cand then resolveCollision existing base (counter + 1) fuel
    else cand

/-- The link name chosen for one folder: the bare base name when it is
still free in the workspace, otherwise the first free suffixed name. -/
def linkNameFor (existing : List String) (base : String) : String :=
  if existing.contains base then
    resolveCollision existing base 1 (existing.length + 1)
  else base

/-- The symlink-creation loop of StartMultiTagSession: the folders are
processed sequentially in the order of the given list (the iteration
order of the Go deduplication map, which the language leaves
unspecified), and each link records its name and its target. -/
def createSymlinks (folders : List String) : List (String × String) :=
  folders.foldl (fun links folder =>
    links ++ [(linkNameFor (links.map Prod.fst) (basename folder), folder)]) []

/-- The outcome of cmd.Run() on the spawned shell: nil error; an
exec.ExitError (the shell ran and exited, hasWaitStatus telling whether
Sys() is a syscall.WaitStatus, which on Unix it always is, exitCode
being the shell exit status); or any other error (the process could not
be started or waited on). -/
inductive ShellRunResult where
  | success : ShellRunResult
  | exitError (hasWaitStatus : Bool) (exitCode : Int) : ShellRunResult
  | startError (msg : String) : ShellRunResult
deriving DecidableEq, Repr

/-- The tail of StartMultiTagSession after os.MkdirTemp succeeded: the
deferred os.RemoveAll(tempDir) is registered at that point, so it runs
on every return path below; the Bool component records that the
workspace was removed.  A symlink failure aborts with an error; an
exec.ExitError carrying a syscall.WaitStatus - the shell exited, with
any code - is converted to success; every other shell error is
surfaced. -/
def startSessionAfterMkdir (symlinkErr : Option String)
    (shellRes : ShellRunResult) : Except String Unit × Bool :=
  match symlinkErr with
  | some folder => (.error ("failed to create symlink for " ++ folder), true)
  | none =>
    match shellRes with
    | .success => (.ok (), true)
    | .exitError true _ => (.ok (), true)
    | .exitError false _ => (.error "failed to run shell", true)
    | .startError msg => (.error ("failed to run shell: " ++ msg), true)

/-- The database invariants sqlite itself enforces on every reachable
state: UNIQUE path and NOT NULL id on folders, UNIQUE name on tags, the
composite primary key on folder_tags, and AUTOINCREMENT ids strictly
below the next-id counters - also for the ids referenced by folder_tags
rows, because AUTOINCREMENT never reuses an id, so even a reference left
dangling by an uncascaded delete stays below the counter. -/
def WF (s : DB) : Prop :=
  s.folders.Pairwise (fun a b => a.id ≠ b.id ∧ a.path ≠ b.path) ∧
  s.tags.Pairwise (fun a b => a.id ≠ b.id ∧ a.name ≠ b.name) ∧
  s.folderTags.Pairwise (fun a b => a.folderId ≠ b.folderId ∨ a.tagId ≠ b.tagId) ∧
  (∀ f ∈ s.folders, f.id < s.nextFolderId) ∧
  (∀ t ∈ s.tags, t.id < s.nextTagId) ∧
  (∀ a ∈ s.folderTags, a.folderId < s.nextFolderId ∧ a.tagId < s.nextTagId)

instance (s : DB) : Decidable (WF s) := by
  unfold WF
  infer_instance

/-- The number of folder_tags rows for a given (path, tag name) pair,
resolving both sides exactly as the subqueries of RemoveTag do; 0 when
either side does not resolve. -/
def assocCount (s : DB) (path tagName : String) : Nat :=
  match findFolder s path, findTag s tagName with
  | some f, some tg =>
      s.folderTags.countP (fun a => a.folderId == f.id && a.tagId == tg.id)
  | _, _ => 0

/-- Whether at least one folder_tags row exists for the pair, resolved
the same way. -/
def assocExists (s : DB) (path tagName : String) : Bool :=
  match findFolder s path, findTag s tagName with
  | some f, some tg =>
      s.folderTags.any (fun a => a.folderId == f.id && a.tagId == tg.id)
  | _, _ => false

/-- Concrete disk contents used by the example states. -/
def exDisk : List String := ["/tmp/a", "/tmp/b"]

/-- The database after tagging /tmp/a with t starting from empty. -/
def exState : DB :=
  { folders := [Folder.mk 1 "/tmp/a" 0],
    tags := [TagRow.mk 1 "t" 0],
    folderTags := [FolderTag.mk 1 1 0],
    nextFolderId := 2,
    nextTagId := 2 }

/-- exState after DeleteTag removed the tags row named t: with
foreign-key enforcement off the association row survives. -/
def exStateOrphan : DB :=
  { folders := [Folder.mk 1 "/tmp/a" 0],
    tags := [],
    folderTags := [FolderTag.mk 1 1 0],
    nextFolderId := 2,
    nextTagId := 2 }

/-- The database after AddTag(/tmp/a, x) and AddTag(/tmp/b, y) starting
from empty: two folders, two tags, one association each. -/
def exTwo : DB :=
  { folders := [Folder.mk 1 "/tmp/a" 0, Folder.mk 2 "/tmp/b" 0],
    tags := [TagRow.mk 1 "x" 0, TagRow.mk 2 "y" 0],
    folderTags := [FolderTag.mk 1 1 0, FolderTag.mk 2 2 0],
    nextFolderId := 3,
    nextTagId := 3 }

/-- exTwo after MergeTag(x, y) at time 9: /tmp/a gains an association
with y, the x tags row is deleted, and its association row is left
behind by the missing cascade. -/
def exTwoMerged : DB :=
  { folders := [Folder.mk 1 "/tmp/a" 0, Folder.mk 2 "/tmp/b" 0],
    tags := [TagRow.mk 2 "y" 0],
    folderTags := [FolderTag.mk 1 1 0, FolderTag.mk 2 2 0, FolderTag.mk 1 2 9],
    nextFolderId := 3,
    nextTagId := 3 }

/-- exState after RemoveTag(/tmp/a, t): the association row is gone, the
folder and tag rows survive. -/
def exRemoved : DB :=
  { folders := [Folder.mk 1 "/tmp/a" 0],
    tags := [TagRow.mk 1 "t" 0],
    folderTags := [],
    nextFolderId := 2,
    nextTagId := 2 }

/-- The database produced by AddTag(/tmp/a, <empty string>) from empty:
AddTag never validates the tag name, so the empty name is stored. -/
def exEmptyTagName : DB :=
  { folders := [Folder.mk 1 "/tmp/a" 0],
    tags := [TagRow.mk 1 "" 0],
    folderTags := [FolderTag.mk 1 1 0],
    nextFolderId := 2,
    nextTagId := 2 }

theorem charsLe_iff : ∀ (as bs : List Char), charsLe as bs = true ↔ ¬ bs < as := by
  intro as
  induction as with
  | nil =>
    intro bs
    simp only [charsLe, true_iff]
    intro h
    exact (nomatch h)
  | cons a as ih =>
    intro bs
    cases bs with
    | nil =>
      simp only [charsLe, Bool.false_eq_true, false_iff, not_not]
      exact List.Lex.nil
    | cons b bs =>
      simp only [charsLe]
      by_cases hab : a < b
      · simp only [if_pos hab, true_iff]
        intro h
        cases h with
        | rel hba => exact absurd hba (lt_asymm hab)
        | cons htl => exact lt_irrefl a hab
      · by_cases hba : b < a
        · simp only [if_neg hab, if_pos hba, Bool.false_eq_true, false_iff, not_not]
          exact List.Lex.rel hba
        · have heq : a = b := le_antisymm (le_of_not_lt hba) (le_of_not_lt hab)
          subst heq
          simp only [if_neg hab, if_neg hba, ih bs]
          constructor
          · intro hn h
            cases h with
            | rel hlt => exact absurd hlt hba
            | cons htl => exact hn htl
          · intro hn htl
            exact hn (List.Lex.cons htl)

theorem strLe_iff {a b : String} : strLe a b = true ↔ a ≤ b := by
  rw [strLe, charsLe_iff]
  constructor
  · intro h hlt
    exact h (String.lt_iff_toList_lt.mp hlt)
  · intro h hlt
    exact h (String.lt_iff_toList_lt.mpr hlt)

theorem mem_insertSorted {y x : String} :
    ∀ {l : List String}, y ∈ insertSorted x l ↔ y = x ∨ y ∈ l := by
  intro l
  induction l with
  | nil => simp [insertSorted]
  | cons z zs ih =>
    simp only [insertSorted]
    by_cases h : strLe x z
    · simp [h]
    · simp only [Bool.not_eq_true] at h
      simp only [h, Bool.false_eq_true, if_false, List.mem_cons, ih]
      tauto

theorem sorted_insertSorted (x : String) :
    ∀ {l : List String}, l.Pairwise (· ≤ ·) →
      (insertSorted x l).Pairwise (· ≤ ·) := by
  intro l
  induction l with
  | nil => intro _; simp [insertSorted]
  | cons z zs ih =>
    intro h
    rw [List.pairwise_cons] at h
    simp only [insertSorted]
    by_cases hxz : strLe x z
    · rw [if_pos hxz, List.pairwise_cons]
      refine ⟨?_, List.pairwise_cons.mpr h⟩
      intro b hb
      rcases List.mem_cons.mp hb with rfl | hb
      · exact strLe_iff.mp hxz
      · exact le_trans (strLe_iff.mp hxz) (h.1 b hb)
    · rw [if_neg hxz, List.pairwise_cons]
      refine ⟨?_, ih h.2⟩
      intro b hb
      rcases mem_insertSorted.mp hb with rfl | hb
      · exact le_of_not_le (fun hle => hxz (strLe_iff.mpr hle))
      · exact h.1 b hb

theorem mem_sortStrings {y : String} :
    ∀ {l : List String}, y ∈ sortStrings l ↔ y ∈ l := by
  intro l
  induction l with
  | nil => simp [sortStrings]
  | cons z zs ih =>
    simp only [sortStrings, List.foldr_cons] at *
    rw [mem_insertSorted, ih, List.mem_cons]

theorem sorted_sortStrings (l : List String) :
    (sortStrings l).Pairwise (· ≤ ·) := by
  induction l with
  | nil => simp [sortStrings]
  | cons z zs ih =>
    simp only [sortStrings, List.foldr_cons] at *
    exact sorted_insertSorted z ih

theorem find?_of_mem_pairwise {α : Type} {pred : α → Bool} {l : List α}
    (hpw : l.Pairwise (fun a b => ¬(pred a = true ∧ pred b = true)))
    {x : α} (hx : x ∈ l) (hpx : pred x = true) : l.find? pred = some x := by
  induction l with
  | nil => cases hx
  | cons y ys ih =>
    rw [List.pairwise_cons] at hpw
    rcases List.mem_cons.mp hx with rfl | hmem
    · exact List.find?_cons_of_pos ys hpx
    · have hy : ¬ pred y = true := fun h => (hpw.1 x hmem) ⟨h, hpx⟩
      rw [List.find?_cons_of_neg ys hy]
      exact ih hpw.2 hmem

theorem countP_eq_one_of_mem_pairwise {α : Type} {pred : α → Bool} {l : List α}
    (hpw : l.Pairwise (fun a b => ¬(pred a = true ∧ pred b = true)))
    {x : α} (hx : x ∈ l) (hpx : pred x = true) : l.countP pred = 1 := by
  induction l with
  | nil => cases hx
  | cons y ys ih =>
    rw [List.pairwise_cons] at hpw
    rcases List.mem_cons.mp hx with rfl | hmem
    · have hz : ys.countP pred = 0 :=
        List.countP_eq_zero.mpr (fun b hb hpb => (hpw.1 b hb) ⟨hpx, hpb⟩)
      rw [List.countP_cons, if_pos hpx, hz]
    · have hy : ¬ pred y = true := fun h => (hpw.1 x hmem) ⟨h, hpx⟩
      rw [List.countP_cons, if_neg hy, ih hpw.2 hmem]

theorem findFolder_congr {s₁ s₂ : DB} (h : s₁.folders = s₂.folders)
    (path : String) : findFolder s₁ path = findFolder s₂ path := by
  unfold findFolder
  rw [h]

theorem findTag_congr {s₁ s₂ : DB} (h : s₁.tags = s₂.tags)
    (name : String) : findTag s₁ name = findTag s₂ name := by
  unfold findTag
  rw [h]

theorem insertOrIgnoreAssoc_fields (s : DB) (fid tid : Nat) (now : Int) :
    (insertOrIgnoreAssoc s fid tid now).folders = s.folders
    ∧ (insertOrIgnoreAssoc s fid tid now).tags = s.tags
    ∧ (insertOrIgnoreAssoc s fid tid now).nextFolderId = s.nextFolderId
    ∧ (insertOrIgnoreAssoc s fid tid now).nextTagId = s.nextTagId := by
  unfold insertOrIgnoreAssoc
  by_cases h : s.folderTags.any (fun a => a.folderId == fid && a.tagId == tid) <;>
    simp [h]

theorem insertOrIgnoreAssoc_mem_pair (s : DB) (fid tid : Nat) (now : Int) :
    ∃ a ∈ (insertOrIgnoreAssoc s fid tid now).folderTags,
      a.folderId = fid ∧ a.tagId = tid := by
  unfold insertOrIgnoreAssoc
  by_cases h : s.folderTags.any (fun a => a.folderId == fid && a.tagId == tid)
  · rw [if_pos h]
    obtain ⟨a, ha, hpa⟩ := List.any_eq_true.mp h
    refine ⟨a, ha, ?_⟩
    simp only [Bool.and_eq_true, beq_iff_eq] at hpa
    exact hpa
  · rw [if_neg h]
    exact ⟨FolderTag.mk fid tid now, by simp, rfl, rfl⟩

theorem insertOrIgnoreAssoc_mem_old {s : DB} {fid tid : Nat} {now : Int}
    {a : FolderTag} (h : a ∈ s.folderTags) :
    a ∈ (insertOrIgnoreAssoc s fid tid now).folderTags := by
  unfold insertOrIgnoreAssoc
  by_cases hc : s.folderTags.any (fun b => b.folderId == fid && b.tagId == tid)
  · rw [if_pos hc]; exact h
  · rw [if_neg hc]; simp only [List.mem_append]; exact Or.inl h

theorem insertOrIgnoreAssoc_mem_inv {s : DB} {fid tid : Nat} {now : Int}
    {a : FolderTag} (h : a ∈ (insertOrIgnoreAssoc s fid tid now).folderTags) :
    a ∈ s.folderTags ∨ a = FolderTag.mk fid tid now := by
  unfold insertOrIgnoreAssoc at h
  by_cases hc : s.folderTags.any (fun b => b.folderId == fid && b.tagId == tid)
  · rw [if_pos hc] at h; exact Or.inl h
  · rw [if_neg hc] at h
    simp only [List.mem_append, List.mem_singleton] at h
    exact h

theorem insertOrIgnoreAssoc_idem {s : DB} {fid tid : Nat} {now : Int}
    (h : s.folderTags.any (fun a => a.folderId == fid && a.tagId == tid) = true) :
    insertOrIgnoreAssoc s fid tid now = s := by
  unfold insertOrIgnoreAssoc
  rw [if_pos h]

theorem ensureFolder_spec (now : Int) (path : String) (s : DB) (fid : Nat)
    (s1 : DB) (h : ensureFolder now path s = (fid, s1)) :
    (∃ f, findFolder s path = some f ∧ f.id = fid ∧ s1 = s)
    ∨ (findFolder s path = none ∧ fid = s.nextFolderId
        ∧ s1 = { s with
            folders := s.folders ++ [Folder.mk s.nextFolderId path now],
            nextFolderId := s.nextFolderId + 1 }) := by
  unfold ensureFolder at h
  cases hf : findFolder s path with
  | some f =>
    rw [hf] at h
    obtain ⟨h1, h2⟩ := Prod.mk.injEq .. ▸ h
    exact Or.inl ⟨f, rfl, h1, h2.symm⟩
  | none =>
    rw [hf] at h
    obtain ⟨h1, h2⟩ := Prod.mk.injEq .. ▸ h
    exact Or.inr ⟨rfl, h1.symm, h2.symm⟩

theorem ensureTag_spec (now : Int) (name : String) (s : DB) (tid : Nat)
    (s1 : DB) (h : ensureTag now name s = (tid, s1)) :
    (∃ t, findTag s name = some t ∧ t.id = tid ∧ s1 = s)
    ∨ (findTag s name = none ∧ tid = s.nextTagId
        ∧ s1 = { s with
            tags := s.tags ++ [TagRow.mk s.nextTagId name now],
            nextTagId := s.nextTagId + 1 }) := by
  unfold ensureTag at h
  cases hf : findTag s name with
  | some t =>
    rw [hf] at h
    obtain ⟨h1, h2⟩ := Prod.mk.injEq .. ▸ h
    exact Or.inl ⟨t, rfl, h1, h2.symm⟩
  | none =>
    rw [hf] at h
    obtain ⟨h1, h2⟩ := Prod.mk.injEq .. ▸ h
    exact Or.inr ⟨rfl, h1.symm, h2.symm⟩

theorem ensureFolder_find (now : Int) (path : String) (s : DB) (fid : Nat)
    (s1 : DB) (h : ensureFolder now path s = (fid, s1)) :
    s1.tags = s.tags ∧ s1.folderTags = s.folderTags ∧ s1.nextTagId = s.nextTagId
    ∧ ∃ c, findFolder s1 path = some (Folder.mk fid path c) := by
  rcases ensureFolder_spec now path s fid s1 h with ⟨f, hf, hid, hs⟩ | ⟨hf, hid, hs⟩
  · subst hs
    have hp : f.path = path := by
      have := List.find?_some hf
      simpa [beq_iff_eq] using this
    refine ⟨rfl, rfl, rfl, f.createdAt, ?_⟩
    rw [hf]
    cases f
    simp only at hp hid
    subst hp
    subst hid
    rfl
  · subst hs
    subst hid
    refine ⟨rfl, rfl, rfl, now, ?_⟩
    unfold findFolder at hf ⊢
    simp only [List.find?_append, hf, Option.none_or]
    simp

theorem ensureTag_find (now : Int) (name : String) (s : DB) (tid : Nat)
    (s1 : DB) (h : ensureTag now name s = (tid, s1)) :
    s1.folders = s.folders ∧ s1.folderTags = s.folderTags
    ∧ s1.nextFolderId = s.nextFolderId
    ∧ ∃ c, findTag s1 name = some (TagRow.mk tid name c) := by
  rcases ensureTag_spec now name s tid s1 h with ⟨t, hf, hid, hs⟩ | ⟨hf, hid, hs⟩
  · subst hs
    have hp : t.name = name := by
      have := List.find?_some hf
      simpa [beq_iff_eq] using this
    refine ⟨rfl, rfl, rfl, t.createdAt, ?_⟩
    rw [hf]
    cases t
    simp only at hp hid
    subst hp
    subst hid
    rfl
  · subst hs
    subst hid
    refine ⟨rfl, rfl, rfl, now, ?_⟩
    unfold findTag at hf ⊢
    simp only [List.find?_append, hf, Option.none_or]
    simp

theorem addTag_ok_elim {disk : List String} {now : Int} {p t : String}
    {s s' : DB} (h : addTag disk now p t s = .ok s') :
    disk.contains p = true
    ∧ ∃ fid tid s1 s2,
        ensureFolder now p s = (fid, s1)
        ∧ ensureTag now t s1 = (tid, s2)
        ∧ s' = insertOrIgnoreAssoc s2 fid tid now := by
  unfold addTag at h
  by_cases hd : disk.contains p
  · refine ⟨hd, ?_⟩
    simp only [hd, Bool.not_true, Bool.false_eq_true, if_false] at h
    rcases hef : ensureFolder now p s with ⟨fid, s1⟩
    rcases het : ensureTag now t s1 with ⟨tid, s2⟩
    rw [hef, het] at h
    simp only [Except.ok.injEq] at h
    exact ⟨fid, tid, s1, s2, rfl, het, h.symm⟩
  · rw [Bool.not_eq_true] at hd
    rw [hd] at h
    simp at h

theorem ensureFolder_WF {now : Int} {path : String} {s : DB} {fid : Nat}
    {s1 : DB} (hwf : WF s) (h : ensureFolder now path s = (fid, s1)) :
    WF s1 ∧ fid < s1.nextFolderId := by
  obtain ⟨hfpw, htpw, hapw, hfb, htb, hab⟩ := hwf
  rcases ensureFolder_spec now path s fid s1 h with ⟨f, hf, hid, hs⟩ | ⟨hf, hid, hs⟩
  · subst hs
    exact ⟨⟨hfpw, htpw, hapw, hfb, htb, hab⟩,
           hid ▸ hfb f (List.mem_of_find?_eq_some hf)⟩
  · subst hs
    subst hid
    refine ⟨⟨?_, htpw, hapw, ?_, htb, ?_⟩, Nat.lt_succ_self _⟩
    · rw [List.pairwise_append]
      refine ⟨hfpw, List.pairwise_singleton .., ?_⟩
      intro a ha b hb
      rw [List.mem_singleton] at hb
      subst hb
      refine ⟨Nat.ne_of_lt (hfb a ha), ?_⟩
      have := List.find?_eq_none.mp hf a ha
      simpa [beq_iff_eq] using this
    · intro f hf2
      rcases List.mem_append.mp hf2 with hold | hnew
      · exact Nat.lt_trans (hfb f hold) (Nat.lt_succ_self _)
      · rw [List.mem_singleton] at hnew
        subst hnew
        exact Nat.lt_succ_self _
    · intro a ha
      exact ⟨Nat.lt_trans (hab a ha).1 (Nat.lt_succ_self _), (hab a ha).2⟩

theorem ensureTag_WF {now : Int} {name : String} {s : DB} {tid : Nat}
    {s1 : DB} (hwf : WF s) (h : ensureTag now name s = (tid, s1)) :
    WF s1 ∧ tid < s1.nextTagId := by
  obtain ⟨hfpw, htpw, hapw, hfb, htb, hab⟩ := hwf
  rcases ensureTag_spec now name s tid s1 h with ⟨t, hf, hid, hs⟩ | ⟨hf, hid, hs⟩
  · subst hs
    exact ⟨⟨hfpw, htpw, hapw, hfb, htb, hab⟩,
           hid ▸ htb t (List.mem_of_find?_eq_some hf)⟩
  · subst hs
    subst hid
    refine ⟨⟨hfpw, ?_, hapw, hfb, ?_, ?_⟩, Nat.lt_succ_self _⟩
    · rw [List.pairwise_append]
      refine ⟨htpw, List.pairwise_singleton .., ?_⟩
      intro a ha b hb
      rw [List.mem_singleton] at hb
      subst hb
      refine ⟨Nat.ne_of_lt (htb a ha), ?_⟩
      have := List.find?_eq_none.mp hf a ha
      simpa [beq_iff_eq] using this
    · intro t ht2
      rcases List.mem_append.mp ht2 with hold | hnew
      · exact Nat.lt_trans (htb t hold) (Nat.lt_succ_self _)
      · rw [List.mem_singleton] at hnew
        subst hnew
        exact Nat.lt_succ_self _
    · intro a ha
      exact ⟨(hab a ha).1, Nat.lt_trans (hab a ha).2 (Nat.lt_succ_self _)⟩

theorem insertOrIgnoreAssoc_WF {s : DB} {fid tid : Nat} {now : Int}
    (hwf : WF s) (hfid : fid < s.nextFolderId) (htid : tid < s.nextTagId) :
    WF (insertOrIgnoreAssoc s fid tid now) := by
  obtain ⟨hfpw, htpw, hapw, hfb, htb, hab⟩ := hwf
  unfold insertOrIgnoreAssoc
  by_cases hc : s.folderTags.any (fun a => a.folderId == fid && a.tagId == tid)
  · rw [if_pos hc]
    exact ⟨hfpw, htpw, hapw, hfb, htb, hab⟩
  · rw [if_neg hc]
    refine ⟨hfpw, htpw, ?_, hfb, htb, ?_⟩
    · rw [List.pairwise_append]
      refine ⟨hapw, List.pairwise_singleton .., ?_⟩
      intro a ha b hb
      rw [List.mem_singleton] at hb
      subst hb
      have hm : ¬(a.folderId == fid && a.tagId == tid) = true := by
        intro hpa
        exact hc (List.any_eq_true.mpr ⟨a, ha, hpa⟩)
      simp only [Bool.and_eq_true, beq_iff_eq, not_and_or] at hm
      exact hm
    · intro a ha
      rcases List.mem_append.mp ha with hold | hnew
      · exact hab a hold
      · rw [List.mem_singleton] at hnew
        subst hnew
        exact ⟨hfid, htid⟩

theorem addTag_WF {disk : List String} {now : Int} {p t : String} {s s' : DB}
    (hwf : WF s) (h : addTag disk now p t s = .ok s') : WF s' := by
  obtain ⟨hd, fid, tid, s1, s2, hef, het, hs⟩ := addTag_ok_elim h
  obtain ⟨hwf1, hfid1⟩ := ensureFolder_WF hwf hef
  obtain ⟨hwf2, htid2⟩ := ensureTag_WF hwf1 het
  obtain ⟨hfo2, hft2, hnf2, -⟩ := ensureTag_find now t s1 tid s2 het
  subst hs
  exact insertOrIgnoreAssoc_WF hwf2 (hnf2 ▸ hfid1) htid2

theorem addTag_twice {disk : List String} {n1 n2 : Int} {p t : String}
    {s s' : DB} (h : addTag disk n1 p t s = .ok s') :
    addTag disk n2 p t s' = .ok s' := by
  obtain ⟨hd, fid, tid, s1, s2, hef, het, hs⟩ := addTag_ok_elim h
  obtain ⟨ht1, hft1, hnt1, c1, hff⟩ := ensureFolder_find n1 p s fid s1 hef
  obtain ⟨hfo2, hft2, hnf2, c2, hft⟩ := ensureTag_find n1 t s1 tid s2 het
  obtain ⟨hIf, hIt, hInf, hInt⟩ := insertOrIgnoreAssoc_fields s2 fid tid n1
  have hfolders : s'.folders = s1.folders := by rw [hs, hIf, hfo2]
  have htags : s'.tags = s2.tags := by rw [hs, hIt]
  have hff' : findFolder s' p = some (Folder.mk fid p c1) := by
    rw [findFolder_congr hfolders p]
    exact hff
  have hft' : findTag s' t = some (TagRow.mk tid t c2) := by
    rw [findTag_congr htags t]
    exact hft
  have hef2 : ensureFolder n2 p s' = (fid, s') := by
    unfold ensureFolder
    rw [hff']
  have het2 : ensureTag n2 t s' = (tid, s') := by
    unfold ensureTag
    rw [hft']
  have hany : s'.folderTags.any
      (fun a => a.folderId == fid && a.tagId == tid) = true := by
    obtain ⟨a, ha, h1, h2⟩ := insertOrIgnoreAssoc_mem_pair s2 fid tid n1
    rw [hs]
    exact List.any_eq_true.mpr ⟨a, ha, by simp [h1, h2]⟩
  unfold addTag
  rw [hd]
  simp only [Bool.not_true, Bool.false_eq_true, if_false, hef2, het2]
  rw [insertOrIgnoreAssoc_idem hany]

theorem findFolder_of_mem {s0 : DB}
    (hfpw : s0.folders.Pairwise (fun a b => a.id ≠ b.id ∧ a.path ≠ b.path))
    {f : Folder} {x : String} (hf : f ∈ s0.folders) (hx : f.path = x) :
    findFolder s0 x = some f := by
  apply find?_of_mem_pairwise _ hf (by simp [hx])
  exact hfpw.imp (fun hr hcon => hr.2 (by
    simp only [beq_iff_eq] at hcon
    exact hcon.1.trans hcon.2.symm))

theorem tagRow_unique {s0 : DB}
    (htpw : s0.tags.Pairwise (fun a b => a.id ≠ b.id ∧ a.name ≠ b.name))
    {t1 t2 : TagRow} (h1 : t1 ∈ s0.tags) (h2 : t2 ∈ s0.tags)
    (hname : t1.name = t2.name) : t1 = t2 := by
  by_contra hne
  have hsym : Symmetric (fun a b : TagRow => a.id ≠ b.id ∧ a.name ≠ b.name) :=
    fun a b hab2 => ⟨hab2.1.symm, hab2.2.symm⟩
  exact (htpw.forall hsym h1 h2 hne).2 hname

theorem folder_unique_by_id {s0 : DB}
    (hfpw : s0.folders.Pairwise (fun a b => a.id ≠ b.id ∧ a.path ≠ b.path))
    {f1 f2 : Folder} (h1 : f1 ∈ s0.folders) (h2 : f2 ∈ s0.folders)
    (hid : f1.id = f2.id) : f1 = f2 := by
  by_contra hne
  have hsym : Symmetric (fun a b : Folder => a.id ≠ b.id ∧ a.path ≠ b.path) :=
    fun a b hab2 => ⟨hab2.1.symm, hab2.2.symm⟩
  exact (hfpw.forall hsym h1 h2 hne).1 hid

/-- Membership in the ListFoldersByTag result, characterized row by row:
x is returned for tag name u exactly when some association row joins to
a tags row named u and to a folders row whose path is x.  Only the
UNIQUE of folder rows is needed. -/
theorem listFoldersByTag_mem_iff (u : String) (s0 : DB) (x : String)
    (hfpw : s0.folders.Pairwise (fun a b => a.id ≠ b.id ∧ a.path ≠ b.path)) :
    x ∈ listFoldersByTag u s0
    ↔ ∃ a ∈ s0.folderTags,
        (∃ tg ∈ s0.tags, tg.id = a.tagId ∧ tg.name = u)
        ∧ ∃ f ∈ s0.folders, f.id = a.folderId ∧ f.path = x := by
  unfold listFoldersByTag
  rw [mem_sortStrings, List.mem_filterMap]
  constructor
  · rintro ⟨a, ha, hval⟩
    by_cases hcond : s0.tags.any (fun t => t.id == a.tagId && t.name == u) = true
    · rw [if_pos hcond] at hval
      obtain ⟨tg, htg, hptg⟩ := List.any_eq_true.mp hcond
      simp only [Bool.and_eq_true, beq_iff_eq] at hptg
      obtain ⟨f0, hf0, hf0x⟩ := Option.map_eq_some'.mp hval
      have hf0mem := List.mem_of_find?_eq_some hf0
      have hf0id : f0.id = a.folderId := by
        simpa [beq_iff_eq] using List.find?_some hf0
      exact ⟨a, ha, ⟨tg, htg, hptg.1, hptg.2⟩, f0, hf0mem, hf0id, hf0x⟩
    · rw [if_neg hcond] at hval
      cases hval
  · rintro ⟨a, ha, ⟨tg, htg, htgid, htgname⟩, f, hf, hfid, hfx⟩
    refine ⟨a, ha, ?_⟩
    have hcond : s0.tags.any (fun t => t.id == a.tagId && t.name == u) = true :=
      List.any_eq_true.mpr ⟨tg, htg, by simp [htgid, htgname]⟩
    rw [if_pos hcond]
    have hfind : s0.folders.find? (fun g => g.id == a.folderId) = some f := by
      apply find?_of_mem_pairwise _ hf (by simp [hfid])
      exact hfpw.imp (fun hr hcon => hr.1 (by
        simp only [beq_iff_eq] at hcon
        exact hcon.1.trans hcon.2.symm))
    rw [hfind]
    simp [hfx]

/-- C1: the claim says deleting a tag can leave no folder_tags row
referencing it, the cascade foreign keys making orphans impossible.
The code contradicts its own schema comment and its own
TestDatabaseForeignKeys test: InitDB opens the database without ever
enabling sqlite foreign-key enforcement, so DeleteTag removes only the
tags row.  Starting from the reachable state exState (one folder, one
tag, one association), DeleteTag succeeds and the association row
survives with no tags row left that it references. -/
theorem deleteTag_leaves_orphaned_association :
    deleteTag "t" exState = .ok exStateOrphan
    ∧ exStateOrphan.folderTags.any
        (fun a => !exStateOrphan.tags.any (fun tg => tg.id == a.tagId)) = true := by
  constructor
  · rfl
  · decide

/-- C4: Prune in dry-run mode returns exactly the stale-folder list that
a real run would remove, and returns the database state unchanged; the
real run removes exactly the folder rows on that list. -/
theorem prune_dry_run_purity (disk : List String) (s : DB) :
    prune disk true s =
      .ok ({ RemovedFolders := (staleFolders disk s).map (fun f => f.path),
             RemovedCount := (staleFolders disk s).length }, s)
    ∧ prune disk false s =
      .ok ({ RemovedFolders := (staleFolders disk s).map (fun f => f.path),
             RemovedCount := (staleFolders disk s).length },
           { s with folders := (s.folders.filter
               (fun f => !((staleFolders disk s).map (fun g => g.id)).contains f.id)) }) :=
  ⟨rfl, rfl⟩

/-- C5: once the workspace directory exists its deferred removal runs on
every exit path, and the only shell failure surfaced by
StartMultiTagSession is a failure to launch or wait on the process: an
exec.ExitError carrying a wait status - a shell that ran and exited,
with any code - is reported as success. -/
theorem shell_exit_status_not_an_error :
    (∀ (symlinkErr : Option String) (res : ShellRunResult),
      (startSessionAfterMkdir symlinkErr res).2 = true)
    ∧ (∀ code : Int,
        startSessionAfterMkdir none (.exitError true code) = (.ok (), true))
    ∧ (∀ msg : String,
        startSessionAfterMkdir none (.startError msg)
          = (.error ("failed to run shell: " ++ msg), true)) := by
  refine ⟨?_, fun _ => rfl, fun _ => rfl⟩
  intro se res
  cases se with
  | some folder => rfl
  | none =>
    cases res with
    | success => rfl
    | exitError hws code => cases hws <;> rfl
    | startError msg => rfl

/-- C6, counterexample: the folders reaching the symlink loop come from
ranging over a Go map, whose iteration order is unspecified, so the
order ["/b/x", "/a/x"] is a possible execution; in it the links are not
created in lexicographic path order - the bare name x goes to /b/x, not
to the lexicographically first folder. -/
theorem createSymlinks_not_lexicographic :
    createSymlinks ["/b/x", "/a/x"] = [("x", "/b/x"), ("x-1", "/a/x")]
    ∧ createSymlinks ["/b/x", "/a/x"]
        ≠ createSymlinks (sortStrings ["/b/x", "/a/x"]) := by
  constructor
  · decide
  · decide

/-- C6, amended: links are created sequentially in the (unspecified) map
iteration order; colliding base names receive suffixes -1, -2, ...
checked against the link names created so far, so for the two folders
/a/x and /b/x, in either processing order, the workspace holds exactly
the entries x and x-1 and each link targets its own folder. -/
theorem createSymlinks_collision_suffix (order : List String)
    (h : order = ["/a/x", "/b/x"] ∨ order = ["/b/x", "/a/x"]) :
    (createSymlinks order).map Prod.fst = ["x", "x-1"]
    ∧ (createSymlinks order).map Prod.snd = order := by
  rcases h with rfl | rfl
  · exact ⟨by decide, by decide⟩
  · exact ⟨by decide, by decide⟩

theorem createSymlinks_collision_suffix_witness :
    (createSymlinks ["/b/x", "/a/x"]).map Prod.fst = ["x", "x-1"]
    ∧ (createSymlinks ["/b/x", "/a/x"]).map Prod.snd = ["/b/x", "/a/x"] :=
  createSymlinks_collision_suffix ["/b/x", "/a/x"] (Or.inr rfl)

/-- C9, counterexample: no operation validates tag names, so AddTag with
the empty tag name succeeds and stores a tags row whose name is the
empty string. -/
theorem addTag_stores_empty_tag_name :
    addTag exDisk 0 "/tmp/a" "" DB.empty = .ok exEmptyTagName
    ∧ exEmptyTagName.tags.any (fun tg => tg.name == "") = true := by
  constructor
  · rfl
  · decide

/-- C2: AddTag is idempotent.  If the first call succeeds, a second call
with the same arguments (at any later time) succeeds and leaves the
database state literally unchanged, and that state holds exactly one
folder row for the path, one tag row for the name, and one association
row for the pair. -/
theorem addTag_idempotent (disk : List String) (n1 n2 : Int) (p t : String)
    (s s' : DB) (hwf : WF s) (h1 : addTag disk n1 p t s = .ok s') :
    addTag disk n2 p t s' = .ok s'
    ∧ s'.folders.countP (fun f => f.path == p) = 1
    ∧ s'.tags.countP (fun tg => tg.name == t) = 1
    ∧ assocCount s' p t = 1 := by
  obtain ⟨hfpw, htpw, hapw, hfb, htb, hab⟩ := addTag_WF hwf h1
  obtain ⟨hd, fid, tid, s1, s2, hef, het, hs⟩ := addTag_ok_elim h1
  obtain ⟨ht1, hft1, hnt1, c1, hff⟩ := ensureFolder_find n1 p s fid s1 hef
  obtain ⟨hfo2, hft2, hnf2, c2, hft⟩ := ensureTag_find n1 t s1 tid s2 het
  obtain ⟨hIf, hIt, hInf, hInt⟩ := insertOrIgnoreAssoc_fields s2 fid tid n1
  have hfolders : s'.folders = s1.folders := by rw [hs, hIf, hfo2]
  have htags : s'.tags = s2.tags := by rw [hs, hIt]
  have hff' : findFolder s' p = some (Folder.mk fid p c1) := by
    rw [findFolder_congr hfolders p]
    exact hff
  have hft' : findTag s' t = some (TagRow.mk tid t c2) := by
    rw [findTag_congr htags t]
    exact hft
  refine ⟨addTag_twice h1, ?_, ?_, ?_⟩
  · apply countP_eq_one_of_mem_pairwise (x := Folder.mk fid p c1)
    · exact hfpw.imp (fun hr hcon => hr.2 (by
        simp only [beq_iff_eq] at hcon
        exact hcon.1.trans hcon.2.symm))
    · exact List.mem_of_find?_eq_some hff'
    · simp
  · apply countP_eq_one_of_mem_pairwise (x := TagRow.mk tid t c2)
    · exact htpw.imp (fun hr hcon => hr.2 (by
        simp only [beq_iff_eq] at hcon
        exact hcon.1.trans hcon.2.symm))
    · exact List.mem_of_find?_eq_some hft'
    · simp
  · unfold assocCount
    rw [hff', hft']
    obtain ⟨a0, ha0, h1a, h2a⟩ := insertOrIgnoreAssoc_mem_pair s2 fid tid n1
    apply countP_eq_one_of_mem_pairwise (x := a0)
    · refine hapw.imp (fun hr hcon => ?_)
      simp only [Bool.and_eq_true, beq_iff_eq] at hcon
      rcases hr with hne | hne
      · exact hne (hcon.1.1.trans hcon.2.1.symm)
      · exact hne (hcon.1.2.trans hcon.2.2.symm)
    · rw [hs]
      exact ha0
    · simp [h1a, h2a]

theorem addTag_idempotent_witness :
    addTag exDisk 1 "/tmp/a" "t" exState = .ok exState
    ∧ exState.folders.countP (fun f => f.path == "/tmp/a") = 1
    ∧ exState.tags.countP (fun tg => tg.name == "t") = 1
    ∧ assocCount exState "/tmp/a" "t" = 1 :=
  addTag_idempotent exDisk 0 1 "/tmp/a" "t" DB.empty exState
    (by decide) (by rfl)

/-- C7: immediately after a successful AddTag(p, t), t is among the tags
listed for p and p is among the folders listed for t; both query results
are lexicographically sorted, and ListFoldersByTag yields the empty list
- not an error - both for a tag name with no tags row and for an
existing tag whose id no association row references. -/
theorem addTag_roundtrip (disk : List String) (n : Int) (p t : String)
    (s s' : DB) (hwf : WF s) (h1 : addTag disk n p t s = .ok s') :
    t ∈ getTagsForFolder p s'
    ∧ p ∈ listFoldersByTag t s'
    ∧ (listFoldersByTag t s').Pairwise (· ≤ ·)
    ∧ (getTagsForFolder p s').Pairwise (· ≤ ·)
    ∧ (∀ (u : String) (s0 : DB), findTag s0 u = none →
        listFoldersByTag u s0 = [])
    ∧ (∀ (u : String) (s0 : DB) (tg : TagRow), WF s0 →
        findTag s0 u = some tg →
        (∀ a ∈ s0.folderTags, a.tagId ≠ tg.id) →
        listFoldersByTag u s0 = []) := by
  obtain ⟨hfpw, htpw, hapw, hfb, htb, hab⟩ := addTag_WF hwf h1
  obtain ⟨hd, fid, tid, s1, s2, hef, het, hs⟩ := addTag_ok_elim h1
  obtain ⟨ht1, hft1, hnt1, c1, hff⟩ := ensureFolder_find n p s fid s1 hef
  obtain ⟨hfo2, hft2, hnf2, c2, hft⟩ := ensureTag_find n t s1 tid s2 het
  obtain ⟨hIf, hIt, hInf, hInt⟩ := insertOrIgnoreAssoc_fields s2 fid tid n
  have hfolders : s'.folders = s1.folders := by rw [hs, hIf, hfo2]
  have htags : s'.tags = s2.tags := by rw [hs, hIt]
  have hff' : findFolder s' p = some (Folder.mk fid p c1) := by
    rw [findFolder_congr hfolders p]
    exact hff
  have hft' : findTag s' t = some (TagRow.mk tid t c2) := by
    rw [findTag_congr htags t]
    exact hft
  have hfmem : Folder.mk fid p c1 ∈ s'.folders := List.mem_of_find?_eq_some hff'
  have htmem : TagRow.mk tid t c2 ∈ s'.tags := List.mem_of_find?_eq_some hft'
  obtain ⟨a0, ha0, h1a, h2a⟩ := insertOrIgnoreAssoc_mem_pair s2 fid tid n
  have ha0' : a0 ∈ s'.folderTags := by
    rw [hs]
    exact ha0
  have hfind_fid : s'.folders.find? (fun f => f.id == a0.folderId)
      = some (Folder.mk fid p c1) := by
    apply find?_of_mem_pairwise
    · exact hfpw.imp (fun hr hcon => hr.1 (by
        simp only [beq_iff_eq] at hcon
        exact hcon.1.trans hcon.2.symm))
    · exact hfmem
    · simp [h1a]
  have hfind_tid : s'.tags.find? (fun tg => tg.id == a0.tagId)
      = some (TagRow.mk tid t c2) := by
    apply find?_of_mem_pairwise
    · exact htpw.imp (fun hr hcon => hr.1 (by
        simp only [beq_iff_eq] at hcon
        exact hcon.1.trans hcon.2.symm))
    · exact htmem
    · simp [h2a]
  refine ⟨?_, ?_, sorted_sortStrings _, sorted_sortStrings _, ?_, ?_⟩
  · unfold getTagsForFolder
    apply mem_sortStrings.mpr
    apply List.mem_filterMap.mpr
    refine ⟨a0, ha0', ?_⟩
    have hcond : s'.folders.any
        (fun f => f.id == a0.folderId && f.path == p) = true :=
      List.any_eq_true.mpr ⟨Folder.mk fid p c1, hfmem, by simp [h1a]⟩
    rw [if_pos hcond, hfind_tid]
    rfl
  · unfold listFoldersByTag
    apply mem_sortStrings.mpr
    apply List.mem_filterMap.mpr
    refine ⟨a0, ha0', ?_⟩
    have hcond : s'.tags.any
        (fun tg => tg.id == a0.tagId && tg.name == t) = true :=
      List.any_eq_true.mpr ⟨TagRow.mk tid t c2, htmem, by simp [h2a]⟩
    rw [if_pos hcond, hfind_fid]
    rfl
  · intro u s0 hnone
    unfold listFoldersByTag
    have hnil : s0.folderTags.filterMap (fun a =>
        if s0.tags.any (fun tg => tg.id == a.tagId && tg.name == u) then
          (s0.folders.find? (fun f => f.id == a.folderId)).map (fun f => f.path)
        else none) = [] := by
      apply List.filterMap_eq_nil_iff.mpr
      intro a ha
      have hcond : ¬ s0.tags.any
          (fun tg => tg.id == a.tagId && tg.name == u) = true := by
        intro hx
        obtain ⟨tg, htg, hp⟩ := List.any_eq_true.mp hx
        simp only [Bool.and_eq_true, beq_iff_eq] at hp
        exact List.find?_eq_none.mp hnone tg htg (by simp [hp.2])
      rw [if_neg hcond]
    rw [hnil]
    rfl
  · intro u s0 tg hwf0 hfind hnoassoc
    obtain ⟨-, htpw0, -, -, -, -⟩ := hwf0
    have htgname : tg.name = u := by
      simpa [beq_iff_eq] using List.find?_some hfind
    have htgmem : tg ∈ s0.tags := List.mem_of_find?_eq_some hfind
    unfold listFoldersByTag
    have hnil : s0.folderTags.filterMap (fun a =>
        if s0.tags.any (fun t2 => t2.id == a.tagId && t2.name == u) then
          (s0.folders.find? (fun f => f.id == a.folderId)).map (fun f => f.path)
        else none) = [] := by
      apply List.filterMap_eq_nil_iff.mpr
      intro a ha
      have hcond : ¬ s0.tags.any
          (fun t2 => t2.id == a.tagId && t2.name == u) = true := by
        intro hx
        obtain ⟨t2, ht2, hp⟩ := List.any_eq_true.mp hx
        simp only [Bool.and_eq_true, beq_iff_eq] at hp
        have ht2tg : t2 = tg :=
          tagRow_unique htpw0 ht2 htgmem (hp.2.trans htgname.symm)
        apply hnoassoc a ha
        rw [← hp.1, ht2tg]
      rw [if_neg hcond]
    rw [hnil]
    rfl

theorem addTag_roundtrip_witness :
    "t" ∈ getTagsForFolder "/tmp/a" exState
    ∧ "/tmp/a" ∈ listFoldersByTag "t" exState
    ∧ listFoldersByTag "zzz" DB.empty = []
    ∧ listFoldersByTag "t" exRemoved = [] := by
  have h := addTag_roundtrip exDisk 0 "/tmp/a" "t" DB.empty exState
    (by decide) (by rfl)
  refine ⟨h.1, h.2.1, h.2.2.2.2.1 "zzz" DB.empty (by rfl), ?_⟩
  exact h.2.2.2.2.2 "t" exRemoved (TagRow.mk 1 "t" 0) (by decide) (by rfl)
    (by simp [exRemoved])

/-- C8: RemoveTag errors exactly when no association row exists for the
(path, tag) pair - including when the folder row or the tag row is
absent, which makes the NULL subquery match nothing - and on success it
deletes exactly that one association row, touching no other row. -/
theorem removeTag_error_iff (p t : String) (s : DB) (hwf : WF s) :
    ((removeTag p t s).toOption = none ↔ assocExists s p t = false)
    ∧ (∀ s', removeTag p t s = .ok s' →
        s'.folders = s.folders ∧ s'.tags = s.tags
        ∧ s'.folderTags.length + 1 = s.folderTags.length
        ∧ assocExists s' p t = false
        ∧ ∃ f tg, findFolder s p = some f ∧ findTag s t = some tg
            ∧ s'.folderTags = s.folderTags.filter
                (fun a => !(a.folderId == f.id && a.tagId == tg.id))) := by
  obtain ⟨hfpw, htpw, hapw, hfb, htb, hab⟩ := hwf
  cases hf : findFolder s p with
  | none =>
    have hrem : removeTagRemaining p t s = s.folderTags := by
      unfold removeTagRemaining
      rw [hf]
    have herr : removeTag p t s
        = .error ("tag " ++ t ++ " not found on folder: " ++ p) := by
      unfold removeTag
      rw [hrem, if_pos (by simp)]
    have hex : assocExists s p t = false := by
      unfold assocExists
      rw [hf]
    rw [herr]
    constructor
    · simp [hex, Except.toOption]
    · intro s' h
      simp at h
  | some f =>
    cases ht : findTag s t with
    | none =>
      have hrem : removeTagRemaining p t s = s.folderTags := by
        unfold removeTagRemaining
        rw [hf, ht]
      have herr : removeTag p t s
          = .error ("tag " ++ t ++ " not found on folder: " ++ p) := by
        unfold removeTag
        rw [hrem, if_pos (by simp)]
      have hex : assocExists s p t = false := by
        unfold assocExists
        rw [hf, ht]
      rw [herr]
      constructor
      · simp [hex, Except.toOption]
      · intro s' h
        simp at h
    | some tg =>
      have hrem : removeTagRemaining p t s = s.folderTags.filter
          (fun a => !(a.folderId == f.id && a.tagId == tg.id)) := by
        unfold removeTagRemaining
        rw [hf, ht]
      have hlen : (s.folderTags.filter
            (fun a => !(a.folderId == f.id && a.tagId == tg.id))).length
          + s.folderTags.countP
              (fun a => a.folderId == f.id && a.tagId == tg.id)
          = s.folderTags.length := by
        rw [← List.countP_eq_length_filter]
        have h0 := List.length_eq_countP_add_countP
          (fun a : FolderTag => a.folderId == f.id && a.tagId == tg.id)
          s.folderTags
        have h1 : List.countP
              (fun a : FolderTag =>
                decide ¬((a.folderId == f.id && a.tagId == tg.id) = true))
              s.folderTags
            = List.countP
              (fun a : FolderTag => !(a.folderId == f.id && a.tagId == tg.id))
              s.folderTags := by
          apply List.countP_congr
          intro a _
          simp
        omega
      by_cases hex : s.folderTags.any
          (fun a => a.folderId == f.id && a.tagId == tg.id) = true
      · obtain ⟨a0, ha0, hpa0⟩ := List.any_eq_true.mp hex
        have hcount1 : s.folderTags.countP
            (fun a => a.folderId == f.id && a.tagId == tg.id) = 1 := by
          apply countP_eq_one_of_mem_pairwise (x := a0) _ ha0 hpa0
          refine hapw.imp (fun hr hcon => ?_)
          simp only [Bool.and_eq_true, beq_iff_eq] at hcon
          rcases hr with hne | hne
          · exact hne (hcon.1.1.trans hcon.2.1.symm)
          · exact hne (hcon.1.2.trans hcon.2.2.symm)
        have hflen : (s.folderTags.filter
              (fun a => !(a.folderId == f.id && a.tagId == tg.id))).length + 1
            = s.folderTags.length := by omega
        have hok : removeTag p t s = .ok { s with
            folderTags := s.folderTags.filter
              (fun a => !(a.folderId == f.id && a.tagId == tg.id)) } := by
          unfold removeTag
          rw [hrem, if_neg (by
            simp only [beq_iff_eq]
            omega)]
        have hassoc : assocExists s p t = true := by
          unfold assocExists
          rw [hf, ht]
          exact hex
        rw [hok]
        constructor
        · constructor
          · intro hcon
            simp [Except.toOption] at hcon
          · intro hcon
            rw [hassoc] at hcon
            simp at hcon
        · intro s' h
          simp only [Except.ok.injEq] at h
          subst h
          refine ⟨rfl, rfl, hflen, ?_, f, tg, rfl, rfl, rfl⟩
          have hfs : findFolder { s with
              folderTags := s.folderTags.filter
                (fun a => !(a.folderId == f.id && a.tagId == tg.id)) } p
              = findFolder s p := findFolder_congr rfl p
          have hts : findTag { s with
              folderTags := s.folderTags.filter
                (fun a => !(a.folderId == f.id && a.tagId == tg.id)) } t
              = findTag s t := findTag_congr rfl t
          unfold assocExists
          rw [hfs, hf, hts, ht]
          apply List.any_eq_false.mpr
          intro a ha hpa
          have := (List.mem_filter.mp ha).2
          rw [hpa] at this
          simp at this
      · have hany : s.folderTags.any
            (fun a => a.folderId == f.id && a.tagId == tg.id) = false :=
          Bool.eq_false_iff.mpr hex
        have hcount0 : s.folderTags.countP
            (fun a => a.folderId == f.id && a.tagId == tg.id) = 0 :=
          List.countP_eq_zero.mpr (List.any_eq_false.mp hany)
        have herr : removeTag p t s
            = .error ("tag " ++ t ++ " not found on folder: " ++ p) := by
          unfold removeTag
          rw [hrem, if_pos (by
            simp only [beq_iff_eq]
            omega)]
        have hexf : assocExists s p t = false := by
          unfold assocExists
          rw [hf, ht]
          exact hany
        rw [herr]
        constructor
        · simp [hexf, Except.toOption]
        · intro s' h
          simp at h

theorem removeTag_error_iff_witness :
    ((removeTag "/tmp/a" "t" exState).toOption = none
      ↔ assocExists exState "/tmp/a" "t" = false)
    ∧ exRemoved.folderTags.length + 1 = exState.folderTags.length
    ∧ assocExists exRemoved "/tmp/a" "t" = false := by
  have h := removeTag_error_iff "/tmp/a" "t" exState (by decide)
  have h2 := h.2 exRemoved (by rfl)
  exact ⟨h.1, h2.2.2.1, h2.2.2.2.1⟩

theorem mergeFold_spec (dstId : Nat) (now : Int) :
    ∀ (l : List String) (cnt : Nat) (st : DB),
      (l.foldl (mergeStep dstId now) (cnt, st)).2.folders = st.folders
      ∧ (l.foldl (mergeStep dstId now) (cnt, st)).2.tags = st.tags
      ∧ (l.foldl (mergeStep dstId now) (cnt, st)).2.nextFolderId = st.nextFolderId
      ∧ (l.foldl (mergeStep dstId now) (cnt, st)).2.nextTagId = st.nextTagId
      ∧ (∀ a ∈ st.folderTags,
          a ∈ (l.foldl (mergeStep dstId now) (cnt, st)).2.folderTags)
      ∧ (∀ a ∈ (l.foldl (mergeStep dstId now) (cnt, st)).2.folderTags,
          a ∈ st.folderTags
          ∨ (a.tagId = dstId
              ∧ ∃ x ∈ l, ∃ f, findFolder st x = some f ∧ a.folderId = f.id))
      ∧ (∀ x ∈ l, ∀ f, findFolder st x = some f →
          ∃ a ∈ (l.foldl (mergeStep dstId now) (cnt, st)).2.folderTags,
            a.folderId = f.id ∧ a.tagId = dstId)
      ∧ (l.foldl (mergeStep dstId now) (cnt, st)).1
          = cnt + l.countP (fun x => (findFolder st x).isSome) := by
  intro l
  induction l with
  | nil =>
    intro cnt st
    refine ⟨rfl, rfl, rfl, rfl, fun a ha => ha, fun a ha => Or.inl ha,
            ?_, by simp⟩
    intro x hx
    cases hx
  | cons x xs ih =>
    intro cnt st
    cases hfx : findFolder st x with
    | none =>
      simp only [List.foldl_cons, mergeStep, hfx]
      obtain ⟨e1, e2, e3, e4, hold, hinv, hcov, hcnt⟩ := ih cnt st
      refine ⟨e1, e2, e3, e4, hold, ?_, ?_, ?_⟩
      · intro a ha
        rcases hinv a ha with hmem | ⟨htag, y, hy, f, hfy, hid⟩
        · exact Or.inl hmem
        · exact Or.inr ⟨htag, y, List.mem_cons_of_mem x hy, f, hfy, hid⟩
      · intro y hy fy hfy
        rcases List.mem_cons.mp hy with rfl | hy2
        · rw [hfx] at hfy
          cases hfy
        · exact hcov y hy2 fy hfy
      · rw [hcnt, List.countP_cons]
        simp [hfx]
    | some f =>
      simp only [List.foldl_cons, mergeStep, hfx]
      obtain ⟨e1, e2, e3, e4, hold, hinv, hcov, hcnt⟩ :=
        ih (cnt + 1) (insertOrIgnoreAssoc st f.id dstId now)
      obtain ⟨hIf, hIt, hInf, hInt⟩ := insertOrIgnoreAssoc_fields st f.id dstId now
      have hfind : ∀ y, findFolder (insertOrIgnoreAssoc st f.id dstId now) y
          = findFolder st y := fun y => findFolder_congr hIf y
      refine ⟨e1.trans hIf, e2.trans hIt, e3.trans hInf, e4.trans hInt,
              ?_, ?_, ?_, ?_⟩
      · intro a ha
        exact hold a (insertOrIgnoreAssoc_mem_old ha)
      · intro a ha
        rcases hinv a ha with hmem | ⟨htag, y, hy, fy, hfy, hid⟩
        · rcases insertOrIgnoreAssoc_mem_inv hmem with hmem2 | rfl
          · exact Or.inl hmem2
          · exact Or.inr ⟨rfl, x, List.mem_cons_self x xs, f, hfx, rfl⟩
        · rw [hfind y] at hfy
          exact Or.inr ⟨htag, y, List.mem_cons_of_mem x hy, fy, hfy, hid⟩
      · intro y hy fy hfy
        rcases List.mem_cons.mp hy with rfl | hy2
        · rw [hfx] at hfy
          have hffy := Option.some.inj hfy
          subst hffy
          obtain ⟨a0, ha0, h1a, h2a⟩ :=
            insertOrIgnoreAssoc_mem_pair st f.id dstId now
          exact ⟨a0, hold a0 ha0, h1a, h2a⟩
        · exact hcov y hy2 fy (by rw [hfind y]; exact hfy)
      · rw [hcnt, List.countP_cons]
        have : xs.countP
              (fun y => (findFolder (insertOrIgnoreAssoc st f.id dstId now) y).isSome)
            = xs.countP (fun y => (findFolder st y).isSome) := by
          apply List.countP_congr
          intro y _
          rw [hfind y]
        rw [this]
        simp [hfx]
        omega

theorem mergeDst_spec (now : Int) (dst : String) (s : DB) :
    (∃ dt, findTag s dst = some dt ∧ (mergeDst now dst s).1 = dt.id
        ∧ (mergeDst now dst s).2 = s)
    ∨ (findTag s dst = none ∧ (mergeDst now dst s).1 = s.nextTagId
        ∧ (mergeDst now dst s).2 = { s with
            tags := s.tags ++ [TagRow.mk s.nextTagId dst now],
            nextTagId := s.nextTagId + 1 }) := by
  unfold mergeDst
  cases hd : findTag s dst with
  | some dt => exact Or.inl ⟨dt, rfl, rfl, rfl⟩
  | none => exact Or.inr ⟨rfl, rfl, rfl⟩

theorem mergeTag_ok_elim {now : Int} {src dst : String} {s : DB} {n : Nat}
    {s' : DB} (h : mergeTag now src dst s = .ok (n, s')) :
    ∃ srcTag, findTag s src = some srcTag
      ∧ n = ((listFoldersByTag src (mergeDst now dst s).2).foldl
              (mergeStep (mergeDst now dst s).1 now)
              (0, (mergeDst now dst s).2)).1
      ∧ s' = { ((listFoldersByTag src (mergeDst now dst s).2).foldl
                 (mergeStep (mergeDst now dst s).1 now)
                 (0, (mergeDst now dst s).2)).2 with
               tags := ((listFoldersByTag src (mergeDst now dst s).2).foldl
                 (mergeStep (mergeDst now dst s).1 now)
                 (0, (mergeDst now dst s).2)).2.tags.filter
                   (fun t => !(t.id == srcTag.id)) } := by
  unfold mergeTag at h
  cases hsrc : findTag s src with
  | none =>
    rw [hsrc] at h
    simp at h
  | some srcTag =>
    rw [hsrc] at h
    simp only [Except.ok.injEq, Prod.mk.injEq] at h
    exact ⟨srcTag, rfl, h.1.symm, h.2.symm⟩

/-- C10: merging an existing tag into itself is not a no-op: the merge
succeeds and the tag is gone afterwards - no tags row with that name
remains and the name no longer appears in ListTags. -/
theorem mergeTag_self_merge_deletes (now : Int) (t : String) (s : DB)
    (hwf : WF s) (hex : (findTag s t).isSome = true) :
    (∃ r, mergeTag now t t s = .ok r)
    ∧ (∀ n s', mergeTag now t t s = .ok (n, s') →
        (∀ row ∈ s'.tags, row.name ≠ t)
        ∧ t ∉ (listTags s').map Prod.fst) := by
  obtain ⟨hfpw, htpw, hapw, hfb, htb, hab⟩ := hwf
  obtain ⟨srcTag, hsrc⟩ := Option.isSome_iff_exists.mp hex
  constructor
  · unfold mergeTag
    rw [hsrc]
    exact ⟨_, rfl⟩
  · intro n s' h
    obtain ⟨srcTag2, hsrc2, hn, hs⟩ := mergeTag_ok_elim h
    rw [hsrc] at hsrc2
    obtain rfl := Option.some.inj hsrc2
    have hmd : mergeDst now t s = (srcTag.id, s) := by
      unfold mergeDst
      rw [hsrc]
    rw [hmd] at hs
    obtain ⟨-, htags2, -, -, -, -, -, -⟩ :=
      mergeFold_spec srcTag.id now (listFoldersByTag t s) 0 s
    have hstags : s'.tags = s.tags.filter (fun tg => !(tg.id == srcTag.id)) := by
      rw [hs]
      simp only [htags2]
    have hname : srcTag.name = t := by
      have := List.find?_some hsrc
      simpa [beq_iff_eq] using this
    have hmem : srcTag ∈ s.tags := List.mem_of_find?_eq_some hsrc
    have hnone : ∀ row ∈ s'.tags, row.name ≠ t := by
      intro row hrow hrn
      rw [hstags] at hrow
      obtain ⟨hrowmem, hrowid⟩ := List.mem_filter.mp hrow
      have hne : row ≠ srcTag := by
        intro heq
        subst heq
        simp at hrowid
      have hsym : Symmetric (fun a b : TagRow => a.id ≠ b.id ∧ a.name ≠ b.name) :=
        fun a b hab2 => ⟨hab2.1.symm, hab2.2.symm⟩
      have := (htpw.forall hsym hrowmem hmem hne).2
      exact this (hrn.trans hname.symm)
    refine ⟨hnone, ?_⟩
    intro hmap
    simp only [listTags, List.map_map, List.mem_map] at hmap
    obtain ⟨row, hrow, hrn⟩ := hmap
    exact hnone row hrow hrn

theorem mergeTag_self_merge_deletes_witness :
    "t" ∉ (listTags exStateOrphan).map Prod.fst := by
  have h := mergeTag_self_merge_deletes 1 "t" exState (by decide) (by rfl)
  exact (h.2 1 exStateOrphan (by rfl)).2

/-- C3, amended: for a source tag that exists and a destination name
distinct from it, after MergeTag the folder set of the destination is
the union of the pre-merge folder sets of source and destination, the
source no longer appears in ListTags, and the returned count is the
number of folders listed for the source (in this sequential embedding
no per-folder statement can fail, so every source folder is counted). -/
theorem mergeTag_conservation (now : Int) (src dst : String) (s : DB)
    (hwf : WF s) (hne : src ≠ dst) (n : Nat) (s' : DB)
    (h : mergeTag now src dst s = .ok (n, s')) :
    (∀ x, x ∈ listFoldersByTag dst s'
        ↔ (x ∈ listFoldersByTag src s ∨ x ∈ listFoldersByTag dst s))
    ∧ src ∉ (listTags s').map Prod.fst
    ∧ n = (listFoldersByTag src s).length := by
  obtain ⟨srcTag, hsrc, hn, hs⟩ := mergeTag_ok_elim h
  obtain ⟨hfpw, htpw, hapw, hfb, htb, hab⟩ := hwf
  have hsname : srcTag.name = src := by
    simpa [beq_iff_eq] using List.find?_some hsrc
  have hsrcmem : srcTag ∈ s.tags := List.mem_of_find?_eq_some hsrc
  rcases mergeDst_spec now dst s with ⟨dt, hdt, hd1, hd2⟩ | ⟨hdt, hd1, hd2⟩
  · -- destination tag already exists
    rw [hd1, hd2] at hn hs
    have hdtname : dt.name = dst := by
      simpa [beq_iff_eq] using List.find?_some hdt
    have hdtmem : dt ∈ s.tags := List.mem_of_find?_eq_some hdt
    have hrowne : srcTag ≠ dt := by
      intro heq
      apply hne
      rw [← hsname, heq, hdtname]
    have hdstId_ne : dt.id ≠ srcTag.id := by
      intro heq
      have hsym : Symmetric (fun a b : TagRow => a.id ≠ b.id ∧ a.name ≠ b.name) :=
        fun a b hab2 => ⟨hab2.1.symm, hab2.2.symm⟩
      exact (htpw.forall hsym hsrcmem hdtmem hrowne).1 heq.symm
    obtain ⟨e1, e2, e3, e4, hold, hinv, hcov, hcnt⟩ :=
      mergeFold_spec dt.id now (listFoldersByTag src s) 0 s
    have hsf : s'.folders = s.folders := by
      rw [hs]
      exact e1
    have hsa : s'.folderTags
        = ((listFoldersByTag src s).foldl (mergeStep dt.id now)
            (0, s)).2.folderTags := by
      rw [hs]
    have hst : s'.tags = s.tags.filter (fun tg => !(tg.id == srcTag.id)) := by
      rw [hs]
      simp only [e2]
    have hfpw' : s'.folders.Pairwise
        (fun a b => a.id ≠ b.id ∧ a.path ≠ b.path) := by
      rw [hsf]
      exact hfpw
    have hdt_mem' : dt ∈ s'.tags := by
      rw [hst]
      exact List.mem_filter.mpr ⟨hdtmem, by simp [hdstId_ne]⟩
    have hs'subs : ∀ tg ∈ s'.tags, tg ∈ s.tags := by
      intro tg htg
      rw [hst] at htg
      exact (List.mem_filter.mp htg).1
    refine ⟨?_, ?_, ?_⟩
    · intro x
      rw [listFoldersByTag_mem_iff dst s' x hfpw']
      constructor
      · rintro ⟨a, ha, ⟨tg, htg, htgid, htgname⟩, f, hfmem, hfid, hfx⟩
        have htgdt : tg = dt :=
          tagRow_unique htpw (hs'subs tg htg) hdtmem (htgname.trans hdtname.symm)
        have hatag : a.tagId = dt.id := by
          rw [← htgid, htgdt]
        rw [hsa] at ha
        rcases hinv a ha with hmem | ⟨-, y, hy, fy, hfy, hafid⟩
        · right
          rw [listFoldersByTag_mem_iff dst s x hfpw]
          exact ⟨a, hmem, ⟨dt, hdtmem, hatag.symm, hdtname⟩,
                 f, hsf ▸ hfmem, hfid, hfx⟩
        · left
          have hfymem : fy ∈ s.folders := List.mem_of_find?_eq_some hfy
          have hfeq : f = fy :=
            folder_unique_by_id hfpw (hsf ▸ hfmem) hfymem (hfid.trans hafid)
          have hfypath : fy.path = y := by
            simpa [beq_iff_eq] using List.find?_some hfy
          have hxy : x = y := by
            rw [← hfx, hfeq, hfypath]
          rw [hxy]
          exact hy
      · intro hx
        rcases hx with hx | hx
        · obtain ⟨a, ha, -, f, hfmem, hfid, hfx⟩ :=
            (listFoldersByTag_mem_iff src s x hfpw).mp hx
          have hfind : findFolder s x = some f := findFolder_of_mem hfpw hfmem hfx
          obtain ⟨a2, ha2, h1a2, h2a2⟩ := hcov x hx f hfind
          exact ⟨a2, hsa ▸ ha2, ⟨dt, hdt_mem', h2a2.symm, hdtname⟩,
                 f, hsf ▸ hfmem, h1a2.symm, hfx⟩
        · obtain ⟨a, ha, ⟨tg, htg, htgid, htgname⟩, f, hfmem, hfid, hfx⟩ :=
            (listFoldersByTag_mem_iff dst s x hfpw).mp hx
          have htgdt : tg = dt :=
            tagRow_unique htpw htg hdtmem (htgname.trans hdtname.symm)
          refine ⟨a, ?_, ⟨dt, hdt_mem', ?_, hdtname⟩, f, hsf ▸ hfmem, hfid, hfx⟩
          · rw [hsa]
            exact hold a ha
          · rw [← htgid, htgdt]
    · intro hmap
      simp only [listTags, List.map_map, List.mem_map] at hmap
      obtain ⟨row, hrow, hrn⟩ := hmap
      have hrowmem : row ∈ s.tags := hs'subs row hrow
      have : row = srcTag := tagRow_unique htpw hrowmem hsrcmem (by
        show row.name = srcTag.name
        rw [hsname]
        exact hrn)
      subst this
      rw [hst] at hrow
      have := (List.mem_filter.mp hrow).2
      simp at this
    · rw [hn, hcnt]
      have hall : (listFoldersByTag src s).countP
          (fun x => (findFolder s x).isSome) = (listFoldersByTag src s).length := by
        apply List.countP_eq_length.mpr
        intro x hx
        obtain ⟨a, ha, -, f, hfmem, hfid, hfx⟩ :=
          (listFoldersByTag_mem_iff src s x hfpw).mp hx
        rw [findFolder_of_mem hfpw hfmem hfx]
        rfl
      rw [hall]
      omega
  · -- destination tag created fresh
    rw [hd1, hd2] at hn hs
    have hens : ensureTag now dst s = (s.nextTagId,
        { s with tags := s.tags ++ [TagRow.mk s.nextTagId dst now],
                 nextTagId := s.nextTagId + 1 }) := by
      unfold ensureTag
      rw [hdt]
    obtain ⟨hwf1, -⟩ :=
      ensureTag_WF ⟨hfpw, htpw, hapw, hfb, htb, hab⟩ hens
    obtain ⟨hfpw1, htpw1, hapw1, hfb1, htb1, hab1⟩ := hwf1
    have hdstrow : TagRow.mk s.nextTagId dst now ∈
        ({ s with tags := s.tags ++ [TagRow.mk s.nextTagId dst now],
                  nextTagId := s.nextTagId + 1 } : DB).tags := by
      simp
    have hsrcmem1 : srcTag ∈
        ({ s with tags := s.tags ++ [TagRow.mk s.nextTagId dst now],
                  nextTagId := s.nextTagId + 1 } : DB).tags := by
      simp only [List.mem_append]
      exact Or.inl hsrcmem
    have hdstId_ne : s.nextTagId ≠ srcTag.id :=
      fun heq => absurd (heq ▸ htb srcTag hsrcmem) (lt_irrefl _)
    have hsrcList : listFoldersByTag src
        { s with tags := s.tags ++ [TagRow.mk s.nextTagId dst now],
                 nextTagId := s.nextTagId + 1 }
        = listFoldersByTag src s := by
      unfold listFoldersByTag
      apply congrArg
      apply List.filterMap_congr
      intro a _
      have hany : (s.tags ++ [TagRow.mk s.nextTagId dst now]).any
          (fun t => t.id == a.tagId && t.name == src)
          = s.tags.any (fun t => t.id == a.tagId && t.name == src) := by
        have hf : (dst == src) = false := beq_eq_false_iff_ne.mpr (Ne.symm hne)
        simp [List.any_append, hf]
      simp only [hany]
    rw [hsrcList] at hn hs
    obtain ⟨e1, e2, e3, e4, hold, hinv, hcov, hcnt⟩ :=
      mergeFold_spec s.nextTagId now (listFoldersByTag src s) 0
        { s with tags := s.tags ++ [TagRow.mk s.nextTagId dst now],
                 nextTagId := s.nextTagId + 1 }
    have hsf : s'.folders = s.folders := by
      rw [hs]
      exact e1
    have hsa : s'.folderTags
        = ((listFoldersByTag src s).foldl (mergeStep s.nextTagId now)
            (0, { s with tags := s.tags ++ [TagRow.mk s.nextTagId dst now],
                         nextTagId := s.nextTagId + 1 })).2.folderTags := by
      rw [hs]
    have hst : s'.tags = (s.tags ++ [TagRow.mk s.nextTagId dst now]).filter
        (fun tg => !(tg.id == srcTag.id)) := by
      rw [hs]
      simp only [e2]
    have hfpw' : s'.folders.Pairwise
        (fun a b => a.id ≠ b.id ∧ a.path ≠ b.path) := by
      rw [hsf]
      exact hfpw
    have hdst_mem' : TagRow.mk s.nextTagId dst now ∈ s'.tags := by
      rw [hst]
      refine List.mem_filter.mpr ⟨by simp, ?_⟩
      simp [hdstId_ne]
    have hs'subs : ∀ tg ∈ s'.tags,
        tg ∈ s.tags ∨ tg = TagRow.mk s.nextTagId dst now := by
      intro tg htg
      rw [hst] at htg
      have := (List.mem_filter.mp htg).1
      simpa using this
    have hffc : ∀ y, findFolder
        { s with tags := s.tags ++ [TagRow.mk s.nextTagId dst now],
                 nextTagId := s.nextTagId + 1 } y = findFolder s y :=
      fun y => findFolder_congr rfl y
    refine ⟨?_, ?_, ?_⟩
    · intro x
      rw [listFoldersByTag_mem_iff dst s' x hfpw']
      constructor
      · rintro ⟨a, ha, ⟨tg, htg, htgid, htgname⟩, f, hfmem, hfid, hfx⟩
        have htgdst : tg = TagRow.mk s.nextTagId dst now := by
          rcases hs'subs tg htg with hmem | heq
          · exact absurd (by simp [htgname] : (tg.name == dst) = true)
              (List.find?_eq_none.mp hdt tg hmem)
          · exact heq
        have hatag : a.tagId = s.nextTagId := by
          rw [← htgid, htgdst]
        rw [hsa] at ha
        rcases hinv a ha with hmem | ⟨-, y, hy, fy, hfy, hafid⟩
        · exact absurd (hatag ▸ (hab a hmem).2) (lt_irrefl _)
        · left
          rw [hffc y] at hfy
          have hfymem : fy ∈ s.folders := List.mem_of_find?_eq_some hfy
          have hfeq : f = fy :=
            folder_unique_by_id hfpw (hsf ▸ hfmem) hfymem (hfid.trans hafid)
          have hfypath : fy.path = y := by
            simpa [beq_iff_eq] using List.find?_some hfy
          have hxy : x = y := by
            rw [← hfx, hfeq, hfypath]
          rw [hxy]
          exact hy
      · intro hx
        rcases hx with hx | hx
        · obtain ⟨a, ha, -, f, hfmem, hfid, hfx⟩ :=
            (listFoldersByTag_mem_iff src s x hfpw).mp hx
          have hfind : findFolder s x = some f := findFolder_of_mem hfpw hfmem hfx
          obtain ⟨a2, ha2, h1a2, h2a2⟩ := hcov x hx f (by
            rw [hffc x]
            exact hfind)
          exact ⟨a2, hsa ▸ ha2,
                 ⟨TagRow.mk s.nextTagId dst now, hdst_mem', h2a2.symm, rfl⟩,
                 f, hsf ▸ hfmem, h1a2.symm, hfx⟩
        · obtain ⟨a, ha, ⟨tg, htg, htgid, htgname⟩, -⟩ :=
            (listFoldersByTag_mem_iff dst s x hfpw).mp hx
          exact absurd (by simp [htgname] : (tg.name == dst) = true)
            (List.find?_eq_none.mp hdt tg htg)
    · intro hmap
      simp only [listTags, List.map_map, List.mem_map] at hmap
      obtain ⟨row, hrow, hrn⟩ := hmap
      have hrowmem : row ∈ s.tags := by
        rcases hs'subs row hrow with hmem | heq
        · exact hmem
        · rw [heq] at hrn
          simp at hrn
          exact absurd hrn (Ne.symm hne)
      have : row = srcTag := tagRow_unique htpw hrowmem hsrcmem (by
        show row.name = srcTag.name
        rw [hsname]
        exact hrn)
      subst this
      rw [hst] at hrow
      have := (List.mem_filter.mp hrow).2
      simp at this
    · rw [hn, hcnt]
      have hall : (listFoldersByTag src s).countP
          (fun x => (findFolder
            { s with tags := s.tags ++ [TagRow.mk s.nextTagId dst now],
                     nextTagId := s.nextTagId + 1 } x).isSome)
          = (listFoldersByTag src s).length := by
        apply List.countP_eq_length.mpr
        intro x hx
        obtain ⟨a, ha, -, f, hfmem, hfid, hfx⟩ :=
          (listFoldersByTag_mem_iff src s x hfpw).mp hx
        rw [hffc x, findFolder_of_mem hfpw hfmem hfx]
        rfl
      rw [hall]
      omega

theorem mergeTag_conservation_witness :
    ("/tmp/a" ∈ listFoldersByTag "y" exTwoMerged
      ↔ ("/tmp/a" ∈ listFoldersByTag "x" exTwo
          ∨ "/tmp/a" ∈ listFoldersByTag "y" exTwo))
    ∧ "x" ∉ (listTags exTwoMerged).map Prod.fst
    ∧ 1 = (listFoldersByTag "x" exTwo).length := by
  have h := mergeTag_conservation 9 "x" "y" exTwo (by decide) (by decide)
    1 exTwoMerged (by rfl)
  exact ⟨h.1 "/tmp/a", h.2.1, h.2.2⟩

theorem mergeDst_folders (now : Int) (dst : String) (s : DB) :
    (mergeDst now dst s).2.folders = s.folders := by
  rcases mergeDst_spec now dst s with ⟨dt, -, -, h2⟩ | ⟨-, -, h2⟩
  · rw [h2]
  · rw [h2]

theorem mergeTag_ok_folders {now : Int} {src dst : String} {s : DB} {n : Nat}
    {s' : DB} (h : mergeTag now src dst s = .ok (n, s')) :
    s'.folders = s.folders := by
  obtain ⟨srcTag, -, -, hs⟩ := mergeTag_ok_elim h
  obtain ⟨e1, -, -, -, -, -, -, -⟩ :=
    mergeFold_spec (mergeDst now dst s).1 now
      (listFoldersByTag src (mergeDst now dst s).2) 0 (mergeDst now dst s).2
  rw [hs]
  exact e1.trans (mergeDst_folders now dst s)

theorem cloneTag_ok_folders {now : Int} {src new : String} {s : DB} {n : Nat}
    {s' : DB} (h : cloneTag now src new s = .ok (n, s')) :
    s'.folders = s.folders := by
  unfold cloneTag at h
  cases hsrc : findTag s src with
  | none =>
    rw [hsrc] at h
    simp at h
  | some srcTag =>
    rw [hsrc] at h
    cases hnew : findTag s new with
    | some _ =>
      rw [hnew] at h
      simp at h
    | none =>
      rw [hnew] at h
      simp only [Except.ok.injEq, Prod.mk.injEq] at h
      obtain ⟨-, hs⟩ := h
      rw [← hs]

theorem renameTag_ok_folders {old new : String} {s : DB} {s' : DB}
    (h : renameTag old new s = .ok s') : s'.folders = s.folders := by
  unfold renameTag at h
  cases hold2 : findTag s old with
  | none =>
    rw [hold2] at h
    simp at h
  | some oldTag =>
    rw [hold2] at h
    cases hnew : findTag s new with
    | some _ =>
      rw [hnew] at h
      simp at h
    | none =>
      rw [hnew] at h
      simp only [Except.ok.injEq] at h
      rw [← h]

/-- C9, amended: no stored folder row ever carries the empty path,
because AddTag is the only operation that inserts folder rows and it
only inserts paths that exist on disk - and the empty path never exists
on disk (os.Stat of the empty string fails with ENOENT); MergeTag,
CloneTag and RenameTag never touch the folders table.  (Tag names, by
contrast, are NOT validated - see the counterexample.) -/
theorem no_empty_folder_path (disk : List String) (now : Int) (p t : String)
    (s : DB) (hdisk : disk.contains "" = false)
    (hpaths : s.folders.all (fun f => !(f.path == "")) = true) :
    (∀ s', addTag disk now p t s = .ok s' →
        s'.folders.all (fun f => !(f.path == "")) = true)
    ∧ (∀ n s', mergeTag now p t s = .ok (n, s') →
        s'.folders.all (fun f => !(f.path == "")) = true)
    ∧ (∀ n s', cloneTag now p t s = .ok (n, s') →
        s'.folders.all (fun f => !(f.path == "")) = true)
    ∧ (∀ s', renameTag p t s = .ok s' →
        s'.folders.all (fun f => !(f.path == "")) = true) := by
  refine ⟨?_, ?_, ?_, ?_⟩
  · intro s' h
    obtain ⟨hd, fid, tid, s1, s2, hef, het, hs⟩ := addTag_ok_elim h
    have hpne : p ≠ "" := by
      intro heq
      rw [heq] at hd
      rw [hd] at hdisk
      cases hdisk
    have hfolders : s'.folders = s1.folders := by
      rw [hs, (insertOrIgnoreAssoc_fields s2 fid tid now).1,
          (ensureTag_find now t s1 tid s2 het).1]
    rw [hfolders]
    rcases ensureFolder_spec now p s fid s1 hef with ⟨f, -, -, hs1⟩ | ⟨-, -, hs1⟩
    · rw [hs1]
      exact hpaths
    · rw [hs1]
      simp only [List.all_append, Bool.and_eq_true]
      refine ⟨hpaths, ?_⟩
      simp [hpne]
  · intro n s' h
    rw [mergeTag_ok_folders h]
    exact hpaths
  · intro n s' h
    rw [cloneTag_ok_folders h]
    exact hpaths
  · intro s' h
    rw [renameTag_ok_folders h]
    exact hpaths

theorem no_empty_folder_path_witness :
    exState.folders.all (fun f => !(f.path == "")) = true :=
  (no_empty_folder_path exDisk 0 "/tmp/a" "t" DB.empty (by decide)
    (by decide)).1 exState (by rfl)

/-- C3, counterexample: merging an existing tag into itself deletes the
tag, so the post-merge folder set of the destination is empty rather
than the pre-merge union of source and destination folder sets. -/
theorem mergeTag_self_merge_breaks_union :
    mergeTag 1 "t" "t" exState = .ok (1, exStateOrphan)
    ∧ listFoldersByTag "t" exStateOrphan = []
    ∧ listFoldersByTag "t" exState = ["/tmp/a"] := by
  refine ⟨?_, ?_, ?_⟩
  · rfl
  · decide
  · decide

end Scope
